import Mathlib

/-!
Verification of the position-and-state reasoning core of the smart-keys
editor extension: brace matching (`src/utils/braceHelpers.ts`), indent
inference (`src/utils/indentHelpers.ts`), cursor helpers
(`src/utils/cursorHelpers.ts`), the End/Backspace/Enter handlers and the
JSON comma heuristic.  Documents are modelled as lists of lines, each line
a list of characters (JS strings indexed by code unit; all characters the
heuristics inspect are ASCII).
-/

/-- ASCII whitespace, standing in for the JS `\s` class used by
`trim`, `trimEnd` and the indent regexes. -/
def isWs (c : Char) : Bool :=
  c = ' ' || c = '\t' || c = '\n' || c = '\r' || c = '\x0b' || c = '\x0c'

/-- JS `String.prototype.trimEnd`. -/
def trimEnd (l : List Char) : List Char :=
  (l.reverse.dropWhile isWs).reverse

/-- JS `String.prototype.trim` (both ends). -/
def trimLine (l : List Char) : List Char :=
  ((l.dropWhile isWs).reverse.dropWhile isWs).reverse

/-! ## BraceMatcher (`src/utils/braceHelpers.ts`)

`countUnmatchedBraces` and `isBraceUnmatched` in the source run the same
scan over the document: push an entry on `{`, pop (if non-empty) on `}`.
The shared scan is factored out here as `braceStack`; the JS array used
as a stack (push/pop at the back) is modelled as a list with its head as
the stack top. -/

/-- Inner character loop of the brace scan: `charIndex` tracks the current
character offset on line `lineNumber`. -/
def braceScanChars (lineNumber : Nat) : Nat → List Char → List (Nat × Nat) → List (Nat × Nat)
  | _, [], stack => stack
  | charIndex, c :: rest, stack =>
    if c = '{' then braceScanChars lineNumber (charIndex + 1) rest ((lineNumber, charIndex) :: stack)
    else if c = '}' then braceScanChars lineNumber (charIndex + 1) rest stack.tail
    else braceScanChars lineNumber (charIndex + 1) rest stack

/-- Final stack of the top-to-bottom, left-to-right brace scan. -/
def braceStack (lines : List (List Char)) : List (Nat × Nat) :=
  lines.enum.foldl (fun stack p => braceScanChars p.1 0 p.2 stack) []

/-- `countUnmatchedBraces(lines)`: final stack depth of the scan. -/
def countUnmatchedBraces (lines : List (List Char)) : Nat :=
  (braceStack lines).length

/-- `isBraceUnmatched(lines, targetLine, targetChar)`: does an entry equal
to the target position remain in the final stack?  Target indices are
integers, as in the source, where they are ordinary JS numbers. -/
def isBraceUnmatched (lines : List (List Char)) (targetLine targetChar : Int) : Bool :=
  (braceStack lines).any (fun p => ((p.1 : Int) == targetLine) && ((p.2 : Int) == targetChar))

/-- `shouldInsertClosingBrace(lines, targetLine, targetChar)`: false unless
the target indexes a `{`; then true if the brace is unmatched, else true
iff deleting that character strictly decreases the unmatched count. -/
def shouldInsertClosingBrace (lines : List (List Char)) (targetLine targetChar : Int) : Bool :=
  if targetLine < 0 ∨ (lines.length : Int) ≤ targetLine then false
  else if targetChar < 0 ∨ ((lines.getD targetLine.toNat []).length : Int) ≤ targetChar
       ∨ (lines.getD targetLine.toNat []).getD targetChar.toNat ' ' ≠ '{' then false
  else if isBraceUnmatched lines targetLine targetChar then true
  else
    decide (countUnmatchedBraces
        (lines.set targetLine.toNat
          ((lines.getD targetLine.toNat []).take targetChar.toNat ++
           (lines.getD targetLine.toNat []).drop (targetChar.toNat + 1)))
      < countUnmatchedBraces lines)

/-! Depth abstraction of the scan: only the stack height matters for
counting, and it evolves per character exactly like this function. -/

/-- Stack depth after processing one character list, starting from depth `d`
(`}` on an empty stack is a no-op thanks to truncated subtraction). -/
def braceDepth : Nat → List Char → Nat
  | d, [] => d
  | d, c :: rest =>
    if c = '{' then braceDepth (d + 1) rest
    else if c = '}' then braceDepth (d - 1) rest
    else braceDepth d rest

theorem braceScanChars_length (lineNumber : Nat) :
    ∀ (cs : List Char) (charIndex : Nat) (stack : List (Nat × Nat)),
      (braceScanChars lineNumber charIndex cs stack).length = braceDepth stack.length cs := by
  intro cs
  induction cs with
  | nil => intro i st; rfl
  | cons c rest ih =>
    intro i st
    by_cases h1 : c = '{'
    · simp [braceScanChars, braceDepth, h1, ih]
    · by_cases h2 : c = '}'
      · simp [braceScanChars, braceDepth, h1, h2, ih, List.length_tail]
      · simp [braceScanChars, braceDepth, h1, h2, ih]

theorem braceDepth_append (d : Nat) (xs ys : List Char) :
    braceDepth d (xs ++ ys) = braceDepth (braceDepth d xs) ys := by
  induction xs generalizing d with
  | nil => rfl
  | cons c rest ih =>
    by_cases h1 : c = '{'
    · simp [braceDepth, h1, ih]
    · by_cases h2 : c = '}'
      · simp [braceDepth, h1, h2, ih]
      · simp [braceDepth, h1, h2, ih]

theorem braceStack_length_aux :
    ∀ (ls : List (List Char)) (k : Nat) (st : List (Nat × Nat)),
      ((List.enumFrom k ls).foldl (fun stack p => braceScanChars p.1 0 p.2 stack) st).length
        = braceDepth st.length ls.flatten := by
  intro ls
  induction ls with
  | nil => intro k st; simp [List.enumFrom, braceDepth]
  | cons l t ih =>
    intro k st
    simp only [List.enumFrom, List.foldl, List.flatten]
    rw [ih, braceScanChars_length, braceDepth_append]

/-- The unmatched count only depends on the concatenated character stream. -/
theorem countUnmatched_eq_depth_join (lines : List (List Char)) :
    countUnmatchedBraces lines = braceDepth 0 lines.flatten := by
  have h := braceStack_length_aux lines 0 []
  simpa [countUnmatchedBraces, braceStack, List.enum] using h

theorem braceDepth_mono {d e : Nat} (h : d ≤ e) (l : List Char) :
    braceDepth d l ≤ braceDepth e l := by
  induction l generalizing d e with
  | nil => exact h
  | cons c rest ih =>
    by_cases h1 : c = '{'
    · simp only [braceDepth, if_pos h1]
      exact ih (by omega)
    · by_cases h2 : c = '}'
      · simp only [braceDepth, if_neg h1, if_pos h2]
        exact ih (by omega)
      · simp only [braceDepth, if_neg h1, if_neg h2]
        exact ih h

theorem braceDepth_le_of_no_close {l : List Char} (h : ∀ c ∈ l, c ≠ '}') (d : Nat) :
    d ≤ braceDepth d l := by
  induction l generalizing d with
  | nil => exact Nat.le_refl d
  | cons c rest ih =>
    have hc : c ≠ '}' := h c (List.mem_cons_self c rest)
    have hrest : ∀ x ∈ rest, x ≠ '}' := fun x hx => h x (List.mem_cons_of_mem c hx)
    by_cases h1 : c = '{'
    · simp only [braceDepth, if_pos h1]
      exact Nat.le_trans (Nat.le_succ d) (ih hrest (d + 1))
    · simp only [braceDepth, if_neg h1, if_neg hc]
      exact ih hrest d

theorem isWs_not_brace {c : Char} (h : isWs c = true) : c ≠ '{' ∧ c ≠ '}' := by
  simp only [isWs, Bool.or_eq_true, decide_eq_true_eq] at h
  rcases h with ((((h | h) | h) | h) | h) | h <;> subst h <;> exact ⟨by decide, by decide⟩

theorem braceDepth_ws {l : List Char} (h : l.all isWs = true) (d : Nat) :
    braceDepth d l = d := by
  induction l generalizing d with
  | nil => rfl
  | cons c rest ih =>
    simp only [List.all_cons, Bool.and_eq_true] at h
    obtain ⟨hne1, hne2⟩ := isWs_not_brace h.1
    simp only [braceDepth, if_neg hne1, if_neg hne2]
    exact ih h.2 d

theorem braceDepth_closes (k : Nat) : ∀ d : Nat, braceDepth d (List.replicate k '}') = d - k := by
  induction k with
  | zero => intro d; rfl
  | succ k ih =>
    intro d
    simp [List.replicate_succ, braceDepth, ih]
    omega

theorem getD_decomp {α : Type} (d : α) :
    ∀ (l : List α) (i : Nat), i < l.length →
      l = l.take i ++ l.getD i d :: l.drop (i + 1) := by
  intro l
  induction l with
  | nil => intro i h; simp at h
  | cons x t ih =>
    intro i h
    cases i with
    | zero => simp [List.getD]
    | succ n =>
      simp only [List.take_succ_cons, List.drop_succ_cons, List.getD_cons_succ,
        List.cons_append, List.cons.injEq]
      exact ⟨trivial, ih n (by simpa using h)⟩

/-- Claim C1: for every array of lines and target position,
`shouldInsertClosingBrace` returns true exactly when the target indexes a
`{` character (in-bounds line and character) and either that brace is
unmatched or deleting it strictly decreases the unmatched count; any
out-of-bounds or non-`{` target yields false. -/
theorem shouldInsertClosing_spec (lines : List (List Char)) (tl tc : Int) :
    shouldInsertClosingBrace lines tl tc = true ↔
      (0 ≤ tl ∧ tl < (lines.length : Int) ∧ 0 ≤ tc ∧
       tc < ((lines.getD tl.toNat []).length : Int) ∧
       (lines.getD tl.toNat []).getD tc.toNat ' ' = '{' ∧
       (isBraceUnmatched lines tl tc = true ∨
        countUnmatchedBraces
            (lines.set tl.toNat
              ((lines.getD tl.toNat []).take tc.toNat ++
               (lines.getD tl.toNat []).drop (tc.toNat + 1)))
          < countUnmatchedBraces lines)) := by
  unfold shouldInsertClosingBrace
  split_ifs with h1 h2 h3
  · simp only [Bool.false_eq_true, false_iff]
    rintro ⟨ha, hb, -⟩
    rcases h1 with h | h <;> omega
  · simp only [Bool.false_eq_true, false_iff]
    rintro ⟨-, -, hc, hd, he, -⟩
    rcases h2 with h | h | h
    · omega
    · omega
    · exact h he
  · simp only [true_iff]
    push_neg at h1 h2
    exact ⟨h1.1, h1.2, h2.1, h2.2.1, h2.2.2, Or.inl h3⟩
  · push_neg at h1 h2
    rw [decide_eq_true_eq]
    constructor
    · intro h
      exact ⟨h1.1, h1.2, h2.1, h2.2.1, h2.2.2, Or.inr h⟩
    · rintro ⟨-, -, -, -, -, h | h⟩
      · exact absurd h h3
      · exact h

/-- Claim C5, counterexample: appending a single `}` at the end of the
document `["{"]` changes `countUnmatchedBraces` from 1 to 0, so the count
is not invariant under appending `}` characters. -/
theorem countUnmatched_append_close_not_invariant :
    ¬ countUnmatchedBraces [['{'], ['}']] = countUnmatchedBraces [['{']] := by
  decide

/-- Claim C5 (amended): `countUnmatched` is invariant under inserting a
matched `{}` pair anywhere in the document; appending `k` extra `}`
characters at the end of the document yields `count - k` (truncated at 0),
so the count is unchanged exactly when it was already 0 — an extra `}`
with an empty stack is a no-op — and otherwise strictly decreases. -/
theorem countUnmatched_insert_append_spec :
    (∀ (pre post : List (List Char)) (s t : List Char),
      countUnmatchedBraces (pre ++ (s ++ '{' :: '}' :: t) :: post) =
        countUnmatchedBraces (pre ++ (s ++ t) :: post)) ∧
    (∀ (doc : List (List Char)) (k : Nat),
      countUnmatchedBraces (doc ++ [List.replicate k '}']) =
        countUnmatchedBraces doc - k) := by
  have hmid : ∀ (e : Nat) (t : List Char), braceDepth e ('{' :: '}' :: t) = braceDepth e t := by
    intro e t; simp [braceDepth]
  constructor
  · intro pre post s t
    rw [countUnmatched_eq_depth_join, countUnmatched_eq_depth_join]
    simp only [List.flatten_append, List.flatten_cons, braceDepth_append, hmid]
  · intro doc k
    rw [countUnmatched_eq_depth_join, countUnmatched_eq_depth_join]
    simp only [List.flatten_append, List.flatten_cons, List.flatten_nil,
      List.append_nil, braceDepth_append, braceDepth_closes]

/-! ## IndentInferencer (`src/utils/indentHelpers.ts`) -/

/-- `findPreviousNonEmptyLine(document, startLine)`: scan upward from
`startLine - 1` for the first line whose trimmed content is non-empty. -/
def findPreviousNonEmptyLine (doc : List (List Char)) : Nat → Option (Nat × List Char)
  | 0 => none
  | n + 1 =>
    if 0 < (trimLine (doc.getD n [])).length then some (n, doc.getD n [])
    else findPreviousNonEmptyLine doc n

/-- Test of the regex `[{:(\[]\s*$`: some character of the class followed
only by whitespace up to the end of the string. -/
def endsWithIncreaseTrigger (l : List Char) : Bool :=
  match l.reverse.dropWhile isWs with
  | c :: _ => c = '{' || c = ':' || c = '(' || c = '['
  | [] => false

/-- Character class `[\w.:$-]` of the opening-tag regex (`\w` is ASCII
word characters). -/
def isWordTagChar (c : Char) : Bool :=
  c.isAlphanum || c = '_' || c = '.' || c = ':' || c = '$' || c = '-'

/-- All-whitespace test (`\s*$` applied to the rest of the string). -/
def allWs (l : List Char) : Bool := l.all isWs

/-- Part `[^>]*>\s*$` of the opening-tag regex: skip to the first `>`
(which `[^>]*` cannot cross), then only whitespace may remain. -/
def tagTail : List Char → Bool
  | [] => false
  | c :: t => if c = '>' then allWs t else tagTail t

/-- Part `(?:\s[^>]*)?>\s*$` of the opening-tag regex, entered right after
the identifier characters. -/
def tagRestAfterIdent : List Char → Bool
  | [] => false
  | c :: t => if c = '>' then allWs t else if isWs c then tagTail t else false

/-- Greedy consumption of the identifier characters `[\w.:$-]+`; stopping
earlier can never succeed because the next character would be a word
character, which matches neither `\s` nor `>`. -/
def tagIdentLoop : List Char → Bool
  | [] => false
  | c :: t => if isWordTagChar c then tagIdentLoop t else tagRestAfterIdent (c :: t)

/-- Match of `[\w.:$-]+(?:\s[^>]*)?>\s*$` directly after a `<`. -/
def tagAfterOpen : List Char → Bool
  | [] => false
  | c :: t => isWordTagChar c && tagIdentLoop t

/-- Unanchored search for the regex `<[\w.:$-]+(?:\s[^>]*)?>\s*$`. -/
def tagSearch : List Char → Bool
  | [] => false
  | c :: t => (c = '<' && tagAfterOpen t) || tagSearch t

/-- `isHtmlLikeOpeningTag(trimmedLine)`: an opening HTML/JSX-like tag —
starts with `<`, is not a closing tag, comment, doctype or
xml-declaration, is not self-closing, and is either the `<>` fragment or
matches the opening-tag regex. -/
def isHtmlLikeOpeningTag (trimmedLine : List Char) : Bool :=
  if !(['<'].isPrefixOf trimmedLine) then false
  else if ['<', '/'].isPrefixOf trimmedLine
       || ['<', '!', '-', '-'].isPrefixOf trimmedLine
       || ['<', '!'].isPrefixOf trimmedLine
       || ['<', '?'].isPrefixOf trimmedLine then false
  else if ['/', '>'].isSuffixOf trimmedLine then false
  else if trimmedLine = ['<', '>'] then true
  else tagSearch trimmedLine

/-- `shouldIncreaseIndent(lineText)`: the trimmed line ends with one of
`{ : ( [` (regex `[{:(\[]\s*$`) or is an HTML/JSX-like opening tag. -/
def shouldIncreaseIndent (lineText : List Char) : Bool :=
  endsWithIncreaseTrigger (trimLine lineText) || isHtmlLikeOpeningTag (trimLine lineText)

/-- `getIndentFromLine(lineText)`: the leading whitespace run (regex `^(\s*)`). -/
def getIndentFromLine (lineText : List Char) : List Char :=
  lineText.takeWhile isWs

/-- `getIndentUnit(editor)`: `tabSize` spaces or one tab.  The source reads
`editor.options.tabSize as number || 4`, so a zero (or unset) tab size
falls back to 4. -/
def getIndentUnit (tabSize : Nat) (insertSpaces : Bool) : List Char :=
  let ts := if tabSize = 0 then 4 else tabSize
  if insertSpaces then List.replicate ts ' ' else ['\t']

/-- `calculateIndent(editor, document, currentLine)`: empty on line 0 or
with no non-empty line above; otherwise the previous non-empty line's
indent, extended by one indent unit when that line increases indent. -/
def calculateIndent (doc : List (List Char)) (currentLine : Nat)
    (tabSize : Nat) (insertSpaces : Bool) : List Char :=
  if currentLine = 0 then []
  else
    match findPreviousNonEmptyLine doc currentLine with
    | none => []
    | some (_, text) =>
      if shouldIncreaseIndent text = false then getIndentFromLine text
      else getIndentFromLine text ++ getIndentUnit tabSize insertSpaces

theorem findPrev_none_iff (doc : List (List Char)) :
    ∀ n, findPreviousNonEmptyLine doc n = none ↔
      ∀ j, j < n → trimLine (doc.getD j []) = [] := by
  intro n
  induction n with
  | zero => simp [findPreviousNonEmptyLine]
  | succ n ih =>
    simp only [findPreviousNonEmptyLine]
    by_cases h : 0 < (trimLine (doc.getD n [])).length
    · rw [if_pos h]
      constructor
      · intro hc; cases hc
      · intro hall
        exfalso
        have hn := hall n (Nat.lt_succ_self n)
        rw [hn] at h
        simp at h
    · rw [if_neg h, ih]
      constructor
      · intro hall j hj
        rcases Nat.lt_succ_iff_lt_or_eq.mp hj with hj' | rfl
        · exact hall j hj'
        · exact List.length_eq_zero.mp (by omega)
      · intro hall j hj
        exact hall j (Nat.lt_succ_of_lt hj)

theorem findPrev_some_of (doc : List (List Char)) :
    ∀ (n j : Nat), j < n → trimLine (doc.getD j []) ≠ [] →
      (∀ k, j < k → k < n → trimLine (doc.getD k []) = []) →
      findPreviousNonEmptyLine doc n = some (j, doc.getD j []) := by
  intro n
  induction n with
  | zero => intro j h; omega
  | succ n ih =>
    intro j hj hne hbtw
    simp only [findPreviousNonEmptyLine]
    rcases Nat.lt_succ_iff_lt_or_eq.mp hj with hj' | rfl
    · have hn : trimLine (doc.getD n []) = [] := hbtw n hj' (Nat.lt_succ_self n)
      rw [if_neg (by rw [hn]; simp)]
      exact ih j hj' hne (fun k hk1 hk2 => hbtw k hk1 (Nat.lt_succ_of_lt hk2))
    · rw [if_pos (List.length_pos.mpr hne)]

/-- Claim C3: `calculateIndent` returns the empty string on line 0 or when
no non-empty line exists above; otherwise, with the nearest previous
non-empty line `j`, it returns exactly that line's leading-whitespace run,
extended by exactly one indent unit (`tabSize` spaces, or one tab when
`insertSpaces` is false; tab sizes are ≥ 1 per the formatting settings)
exactly when that line satisfies `shouldIncreaseIndent`. -/
theorem calculateIndent_spec (doc : List (List Char)) (n ts : Nat) (insertSpaces : Bool)
    (hts : 1 ≤ ts) :
    (n = 0 → calculateIndent doc n ts insertSpaces = []) ∧
    ((∀ j, j < n → trimLine (doc.getD j []) = []) →
      calculateIndent doc n ts insertSpaces = []) ∧
    (∀ j, j < n → trimLine (doc.getD j []) ≠ [] →
      (∀ k, j < k → k < n → trimLine (doc.getD k []) = []) →
      (shouldIncreaseIndent (doc.getD j []) = false →
        calculateIndent doc n ts insertSpaces = getIndentFromLine (doc.getD j [])) ∧
      (shouldIncreaseIndent (doc.getD j []) = true →
        calculateIndent doc n ts insertSpaces =
          getIndentFromLine (doc.getD j []) ++
            (if insertSpaces then List.replicate ts ' ' else ['\t']))) := by
  refine ⟨fun h => by simp [calculateIndent, h], fun hall => ?_, ?_⟩
  · by_cases hn : n = 0
    · simp [calculateIndent, hn]
    · have hnone := (findPrev_none_iff doc n).mpr hall
      simp [calculateIndent, hn, hnone]
  · intro j hj hne hbtw
    have hn : n ≠ 0 := by omega
    have hfp := findPrev_some_of doc n j hj hne hbtw
    have hunit : getIndentUnit ts insertSpaces =
        if insertSpaces then List.replicate ts ' ' else ['\t'] := by
      have : ts ≠ 0 := by omega
      simp [getIndentUnit, this]
    constructor
    · intro hsi
      unfold calculateIndent
      rw [if_neg hn, hfp]
      show (if shouldIncreaseIndent (doc.getD j []) = false
            then getIndentFromLine (doc.getD j [])
            else getIndentFromLine (doc.getD j []) ++ getIndentUnit ts insertSpaces) = _
      rw [if_pos hsi]
    · intro hsi
      unfold calculateIndent
      rw [if_neg hn, hfp]
      show (if shouldIncreaseIndent (doc.getD j []) = false
            then getIndentFromLine (doc.getD j [])
            else getIndentFromLine (doc.getD j []) ++ getIndentUnit ts insertSpaces) = _
      rw [if_neg (by rw [hsi]; simp), hunit]

/-- Witness for C3 at a concrete input: after the line `"a{"` (which
increases indent) the computed indent is one indent unit of four spaces. -/
theorem calculateIndent_spec_witness :
    calculateIndent [['a', '{']] 1 4 true = List.replicate 4 ' ' :=
  (((calculateIndent_spec [['a', '{']] 1 4 true (by decide)).2.2 0 (by decide)
      (by decide) (fun k hk1 hk2 => absurd hk2 (by omega))).2 (by decide)).trans (by decide)

/-! ## StructuredValueHeuristics (`src/handlers/smartJsonCommaHandler.ts`) -/

/-- `lineNeedsComma(lineText)`: the trimmed line is non-empty, does not
already end with a comma, contains a colon, and ends with a value — a
closing quote, `}`, `]`, a digit (`/\d$/`), or `true`/`false`/`null`. -/
def lineNeedsComma (lineText : List Char) : Bool :=
  if (trimLine lineText).length = 0 then false
  else if [','].isSuffixOf (trimLine lineText) then false
  else if !((trimLine lineText).contains ':') then false
  else
    ['"'].isSuffixOf (trimLine lineText) ||
    ['}'].isSuffixOf (trimLine lineText) ||
    [']'].isSuffixOf (trimLine lineText) ||
    (match (trimLine lineText).getLast? with
     | some c => c.isDigit
     | none => false) ||
    ['t', 'r', 'u', 'e'].isSuffixOf (trimLine lineText) ||
    ['f', 'a', 'l', 's', 'e'].isSuffixOf (trimLine lineText) ||
    ['n', 'u', 'l', 'l'].isSuffixOf (trimLine lineText)

theorem getLast_digit_iff (l : List Char) :
    (match l.getLast? with
     | some c => c.isDigit
     | none => false) = true ↔ ∃ c, l.getLast? = some c ∧ c.isDigit = true := by
  cases h : l.getLast? <;> simp [h]

/-- Claim C9: the Enter-time terminator heuristic judges a line to need a
comma iff its trimmed content is non-empty, does not already end with the
comma, contains a colon, and ends with a closing quote, closing brace,
closing bracket, a digit, or one of the literal tokens `true`, `false`,
`null`. -/
theorem lineNeedsComma_spec (l : List Char) :
    lineNeedsComma l = true ↔
      (trimLine l ≠ [] ∧
       [','].isSuffixOf (trimLine l) = false ∧
       (trimLine l).contains ':' = true ∧
       (['"'].isSuffixOf (trimLine l) = true ∨
        ['}'].isSuffixOf (trimLine l) = true ∨
        [']'].isSuffixOf (trimLine l) = true ∨
        (∃ c, (trimLine l).getLast? = some c ∧ c.isDigit = true) ∨
        ['t', 'r', 'u', 'e'].isSuffixOf (trimLine l) = true ∨
        ['f', 'a', 'l', 's', 'e'].isSuffixOf (trimLine l) = true ∨
        ['n', 'u', 'l', 'l'].isSuffixOf (trimLine l) = true)) := by
  unfold lineNeedsComma
  split_ifs with h1 h2 h3
  · simp only [Bool.false_eq_true, false_iff]
    rintro ⟨h, -⟩
    exact h (List.length_eq_zero.mp h1)
  · simp only [Bool.false_eq_true, false_iff]
    rintro ⟨-, h, -⟩
    simp [h] at h2
  · simp only [Bool.false_eq_true, false_iff]
    rintro ⟨-, -, h, -⟩
    simp at h h3
    exact h3 h
  · have c1 : trimLine l ≠ [] := fun he => h1 (by simp [he])
    have c2 : [','].isSuffixOf (trimLine l) = false := Bool.eq_false_iff.mpr h2
    have c3 : (trimLine l).contains ':' = true := by simpa using h3
    simp only [Bool.or_eq_true, getLast_digit_iff]
    constructor
    · intro h
      refine ⟨c1, c2, c3, ?_⟩
      simpa [or_assoc] using h
    · rintro ⟨-, -, -, h⟩
      simpa [or_assoc] using h

/-! ## Cursor helpers (`src/utils/cursorHelpers.ts`) and the Smart
Backspace dispatch (`SmartBackspaceHandler.execute`) -/

/-- JS `lineText.search(/\S/)`: index of the first non-whitespace
character, `none` for `-1`. -/
def searchNonWs : List Char → Option Nat
  | [] => none
  | c :: t => if !isWs c then some 0 else (searchNonWs t).map (· + 1)

/-- `isInIndentZone(lineText, cursorChar)`: the line has a first
non-whitespace character and the cursor is at or before it. -/
def isInIndentZone (lineText : List Char) (cursorChar : Nat) : Bool :=
  match searchNonWs lineText with
  | none => false
  | some i => cursorChar ≤ i

/-- `getFirstNonWhitespaceIndex(lineText)`: like `searchNonWs` but 0 when
the line is all whitespace. -/
def getFirstNonWhitespaceIndex (lineText : List Char) : Nat :=
  (searchNonWs lineText).getD 0

/-- Branch taken by `SmartBackspaceHandler.execute` for a single empty
cursor: the empty-line handler runs (and succeeds) when the trimmed line
is empty, the feature is on and the line is not line 0; failing that, the
indent-zone handler runs under the analogous conditions; otherwise the
default one-character deletion is forwarded. -/
inductive BackspaceBranch
  | emptyLine
  | indentZone
  | defaultDelete
deriving DecidableEq

/-- Dispatch of `SmartBackspaceHandler.execute` (both `handleEmptyLine`
and `handleIndentZone` return false exactly when `currentLine` is 0). -/
def backspaceBranch (handleEmptyLineCfg handleIndentZoneCfg : Bool)
    (doc : List (List Char)) (currentLine currentChar : Nat) : BackspaceBranch :=
  if trimLine (doc.getD currentLine []) = [] ∧ handleEmptyLineCfg = true ∧ currentLine ≠ 0 then
    .emptyLine
  else if isInIndentZone (doc.getD currentLine []) currentChar = true
      ∧ handleIndentZoneCfg = true ∧ currentLine ≠ 0 then
    .indentZone
  else
    .defaultDelete

theorem searchNonWs_ws {l : List Char} (h : l.all isWs = true) : searchNonWs l = none := by
  induction l with
  | nil => rfl
  | cons c t ih =>
    simp only [List.all_cons, Bool.and_eq_true] at h
    simp [searchNonWs, h.1, ih h.2]

/-- Claim C10: on a line consisting entirely of whitespace (including the
empty line) `isInIndentZone` is false for every cursor column, so the
indent-zone branch of Smart Backspace never engages on such a line —
whitespace-only lines go to the empty-line branch or the default
deletion. -/
theorem indentZone_whitespace_line_spec (l : List Char) (c : Nat)
    (doc : List (List Char)) (currentLine currentChar : Nat)
    (handleEmptyLineCfg handleIndentZoneCfg : Bool)
    (hl : l.all isWs = true) (hd : (doc.getD currentLine []).all isWs = true) :
    isInIndentZone l c = false ∧
    backspaceBranch handleEmptyLineCfg handleIndentZoneCfg doc currentLine currentChar
      ≠ BackspaceBranch.indentZone := by
  have hzone : ∀ l' : List Char, l'.all isWs = true → ∀ c', isInIndentZone l' c' = false := by
    intro l' h c'
    simp [isInIndentZone, searchNonWs_ws h]
  refine ⟨hzone l hl c, ?_⟩
  unfold backspaceBranch
  split_ifs with h1 h2
  · intro h; cases h
  · have hfalse := h2.1
    rw [hzone _ hd currentChar] at hfalse
    cases hfalse
  · intro h; cases h

/-- Witness for C10 at a concrete input: the all-whitespace line `" "`. -/
theorem indentZone_whitespace_line_spec_witness :
    isInIndentZone [' '] 0 = false ∧
    backspaceBranch true true [[' ']] 0 0 ≠ BackspaceBranch.indentZone :=
  indentZone_whitespace_line_spec [' '] 0 [[' ']] 0 0 true true (by decide) (by decide)

/-! ## EndToggleTracker (`src/handlers/smartEndHandler.ts` and its
multi-cursor revision) -/

/-- Stored End state: `{ line, character, atTrimmedEnd }`. -/
structure EndPositionState where
  line : Nat
  character : Nat
  atTrimmedEnd : Bool
deriving DecidableEq

/-- A VS Code selection: an (anchor, active) position pair. -/
structure Selection where
  anchorLine : Nat
  anchorChar : Nat
  activeLine : Nat
  activeChar : Nat
deriving DecidableEq

/-- `selection.isEmpty`: anchor and active coincide. -/
def selIsEmpty (s : Selection) : Bool :=
  s.anchorLine == s.activeLine && s.anchorChar == s.activeChar

/-- `calculateTargetPosition` of the multi-cursor revision; the
single-selection revision's `handleNonEmptyLine` inlines exactly this
decision. Returns the target column and the new `atTrimmedEnd` flag. -/
def calculateTargetPosition (lineText : List Char) (currentChar currentLine : Nat)
    (lastPos : Option EndPositionState) : Nat × Bool :=
  let trimmedLength := (trimEnd lineText).length
  let fullLength := lineText.length
  let isAtEnd :=
    match lastPos with
    | some lp => lp.line == currentLine && trimmedLength ≤ currentChar
    | none => false
  let lastAtTrimmed :=
    match lastPos with
    | some lp => lp.atTrimmedEnd
    | none => false
  if isAtEnd && lastAtTrimmed && currentChar == trimmedLength then (fullLength, false)
  else if isAtEnd && !lastAtTrimmed && currentChar == fullLength then (trimmedLength, true)
  else if currentChar == trimmedLength && decide (trimmedLength < fullLength) then
    (fullLength, false)
  else (trimmedLength, true)

/-- `handleNonEmptyLine`: move the cursor to the computed column and store
that column (with its flag) as the new per-document state. -/
def smartEndPress (lineText : List Char) (line cursor : Nat)
    (st : Option EndPositionState) : Nat × EndPositionState :=
  let p := calculateTargetPosition lineText cursor line st
  (p.1, ⟨line, p.1, p.2⟩)

/-- Claim C4: on a non-empty line with trailing whitespace
(`trimmed < full`), a press at the trimmed end always moves to the full
end (whatever state is stored), and from then on the toggle is a stable
2-cycle trimmed → full → trimmed. -/
theorem smartEnd_toggle_two_cycle (lineText : List Char) (line : Nat)
    (hne : trimEnd lineText ≠ [])
    (hlt : (trimEnd lineText).length < lineText.length) :
    (∀ st : Option EndPositionState,
      smartEndPress lineText line (trimEnd lineText).length st =
        (lineText.length, ⟨line, lineText.length, false⟩)) ∧
    smartEndPress lineText line lineText.length
        (some ⟨line, lineText.length, false⟩) =
      ((trimEnd lineText).length, ⟨line, (trimEnd lineText).length, true⟩) ∧
    smartEndPress lineText line (trimEnd lineText).length
        (some ⟨line, (trimEnd lineText).length, true⟩) =
      (lineText.length, ⟨line, lineText.length, false⟩) := by
  have hnee : (trimEnd lineText).length ≠ lineText.length := by omega
  refine ⟨?_, ?_, ?_⟩
  · intro st
    unfold smartEndPress calculateTargetPosition
    rcases st with _ | ⟨l, ch, flag⟩
    · simp [hlt]
    · by_cases hline : l = line
      · subst hline
        cases flag
        · simp [hlt, hnee]
        · simp [hlt]
      · simp [hline, hlt, Ne.symm hnee]
  · unfold smartEndPress calculateTargetPosition
    simp [hlt, Ne.symm hnee]
  · unfold smartEndPress calculateTargetPosition
    simp [hlt]

/-- Witness for C4 on the concrete line `"a "` (trimmed end 1, full end 2):
pressing from column 1 goes to 2, pressing again returns to 1, and a third
press goes back to 2. -/
theorem smartEnd_toggle_two_cycle_witness :
    (smartEndPress ['a', ' '] 0 1 none = (2, ⟨0, 2, false⟩)) ∧
    (smartEndPress ['a', ' '] 0 2 (some ⟨0, 2, false⟩) = (1, ⟨0, 1, true⟩)) ∧
    (smartEndPress ['a', ' '] 0 1 (some ⟨0, 1, true⟩) = (2, ⟨0, 2, false⟩)) := by
  have h := smartEnd_toggle_two_cycle ['a', ' '] 0 (by decide) (by decide)
  exact ⟨h.1 none, h.2.1, h.2.2⟩

/-- Result of a Smart End key press: fall back to the default `cursorEnd`
command, or apply the smart empty-line indent edit, or the smart cursor
move, or the multi-cursor batch (per-cursor target position plus the
optional line edit). -/
inductive EndOutcome
  | defaultEnd
  | smartIndent (newLineText : List Char) (cursor : Nat × Nat) (st : EndPositionState)
  | smartMove (cursor : Nat × Nat) (st : EndPositionState)
  | smartMulti (results : List ((Nat × Nat) × Option (List Char)))
deriving DecidableEq

/-- `SmartEndHandler.execute` of `src/handlers/smartEndHandler.ts` (the
single-selection revision): it reads only `selection.active` and never
consults `selection.isEmpty`. -/
def smartEndExecuteSingleRev (indentEmptyLine toggleTrimmedEnd : Bool)
    (tabSize : Nat) (insertSpaces : Bool) (doc : List (List Char))
    (sel : Selection) (st : Option EndPositionState) : EndOutcome :=
  let currentLine := sel.activeLine
  let currentChar := sel.activeChar
  let lineText := doc.getD currentLine []
  if trimLine lineText = [] then
    if indentEmptyLine = false then .defaultEnd
    else
      let targetIndent := calculateIndent doc currentLine tabSize insertSpaces
      .smartIndent targetIndent (currentLine, targetIndent.length)
        ⟨currentLine, targetIndent.length, false⟩
  else
    if toggleTrimmedEnd = false then .defaultEnd
    else
      let p := calculateTargetPosition lineText currentChar currentLine st
      .smartMove (currentLine, p.1) ⟨currentLine, p.1, p.2⟩

/-- `canUseSmartBehavior` of the multi-cursor revision of the End handler:
every selection must be empty and the feature for its line kind enabled. -/
def canUseSmartBehavior (indentEmptyLine toggleTrimmedEnd : Bool)
    (doc : List (List Char)) (sels : List Selection) : Bool :=
  sels.all (fun sel =>
    selIsEmpty sel &&
    (if trimLine (doc.getD sel.activeLine []) = [] then indentEmptyLine
     else toggleTrimmedEnd))

/-- `SmartEndHandler.execute` of the multi-cursor revision: fall back to
the default `cursorEnd` unless every selection can use smart behavior;
a single cursor follows the single-cursor logic; several cursors are
processed as a batch (each empty line edited to its computed indent,
each non-empty line's cursor moved). -/
def smartEndExecuteMultiRev (indentEmptyLine toggleTrimmedEnd : Bool)
    (tabSize : Nat) (insertSpaces : Bool) (doc : List (List Char))
    (sels : List Selection) (st : Option EndPositionState) : EndOutcome :=
  if canUseSmartBehavior indentEmptyLine toggleTrimmedEnd doc sels = false then .defaultEnd
  else
    match sels with
    | [sel] =>
      let lineText := doc.getD sel.activeLine []
      if trimLine lineText = [] then
        let targetIndent := calculateIndent doc sel.activeLine tabSize insertSpaces
        .smartIndent targetIndent (sel.activeLine, targetIndent.length)
          ⟨sel.activeLine, targetIndent.length, false⟩
      else
        let p := calculateTargetPosition lineText sel.activeChar sel.activeLine st
        .smartMove (sel.activeLine, p.1) ⟨sel.activeLine, p.1, p.2⟩
    | _ =>
      .smartMulti (sels.map (fun sel =>
        let lineText := doc.getD sel.activeLine []
        if trimLine lineText = [] then
          let targetIndent := calculateIndent doc sel.activeLine tabSize insertSpaces
          ((sel.activeLine, targetIndent.length), some targetIndent)
        else
          ((sel.activeLine,
            (calculateTargetPosition lineText sel.activeChar sel.activeLine st).1), none)))

/-- Claim C7, counterexample: in `SmartEndHandler.execute` of
`src/handlers/smartEndHandler.ts` a non-empty selection (anchor (0,0),
active (0,5)) on the line `"abc  "` still performs the smart trimmed-end
move — the handler never checks `selection.isEmpty`, so it does not fall
back to the default End behavior. -/
theorem smartEnd_singleRev_ignores_selection :
    selIsEmpty ⟨0, 0, 0, 5⟩ = false ∧
    smartEndExecuteSingleRev true true 4 true [['a', 'b', 'c', ' ', ' ']]
        ⟨0, 0, 0, 5⟩ none =
      EndOutcome.smartMove (0, 3) ⟨0, 3, true⟩ ∧
    smartEndExecuteSingleRev true true 4 true [['a', 'b', 'c', ' ', ' ']]
        ⟨0, 0, 0, 5⟩ none ≠ EndOutcome.defaultEnd := by
  decide

/-- Claim C7 (amended): in the multi-cursor revision of the End handler,
any non-empty selection in the processed set forces the whole action to
fall back to the default End behavior; the single-selection revision in
`smartEndHandler.ts` instead ignores selection emptiness and acts on the
active position. -/
theorem smartEnd_nonEmpty_selection_fallback (indentEmptyLine toggleTrimmedEnd : Bool)
    (tabSize : Nat) (insertSpaces : Bool) (doc : List (List Char))
    (sels : List Selection) (st : Option EndPositionState) (s : Selection)
    (hmem : s ∈ sels) (hne : selIsEmpty s = false) :
    smartEndExecuteMultiRev indentEmptyLine toggleTrimmedEnd tabSize insertSpaces
      doc sels st = EndOutcome.defaultEnd := by
  have hall : canUseSmartBehavior indentEmptyLine toggleTrimmedEnd doc sels = false := by
    cases hca : canUseSmartBehavior indentEmptyLine toggleTrimmedEnd doc sels
    · rfl
    · exfalso
      have hs := List.all_eq_true.mp hca s hmem
      rw [hne] at hs
      simp at hs
  unfold smartEndExecuteMultiRev
  rw [if_pos hall]

/-- Witness for the amended C7: one non-empty selection forces the default
End action. -/
theorem smartEnd_nonEmpty_selection_fallback_witness :
    smartEndExecuteMultiRev true true 4 true [['a']] [⟨0, 0, 0, 1⟩] none =
      EndOutcome.defaultEnd :=
  smartEnd_nonEmpty_selection_fallback true true 4 true [['a']] [⟨0, 0, 0, 1⟩] none
    ⟨0, 0, 0, 1⟩ (List.mem_singleton.mpr rfl) (by decide)

/-! ## SmartBackspaceHandler.handleEmptyLineWithEmptyPrevious -/

/-- The edit of `handleEmptyLineWithEmptyPrevious`: delete the previous
line (the range from (line-1, 0) to (line, 0)) and replace the current
line's content with `calculateIndent`; the cursor moves to the end of the
new indent one line up.  Returned as (new line list, new cursor). -/
def handleEmptyLineWithEmptyPrevious (doc : List (List Char)) (currentLine tabSize : Nat)
    (insertSpaces : Bool) : (List (List Char)) × (Nat × Nat) :=
  let targetIndent := calculateIndent doc currentLine tabSize insertSpaces
  (doc.take (currentLine - 1) ++ targetIndent :: doc.drop (currentLine + 1),
   (currentLine - 1, targetIndent.length))

theorem getD_take {α : Type} (l : List α) (m j : Nat) (d : α) (h : j < m) :
    (l.take m).getD j d = l.getD j d := by
  induction l generalizing m j with
  | nil => simp
  | cons x t ih =>
    cases m with
    | zero => omega
    | succ m' =>
      cases j with
      | zero => simp
      | succ j' => simpa using ih m' j' (by omega)

theorem getD_append_left {α : Type} (A B : List α) (j : Nat) (d : α) (h : j < A.length) :
    (A ++ B).getD j d = A.getD j d := by
  induction A generalizing j with
  | nil => simp at h
  | cons x t ih =>
    cases j with
    | zero => simp
    | succ j' => simpa using ih j' (by simpa using h)

theorem getD_append_length {α : Type} (A B : List α) (x d : α) :
    (A ++ x :: B).getD A.length d = x := by
  induction A with
  | nil => rfl
  | cons y t ih => simpa using ih

theorem findPrev_congr (d1 d2 : List (List Char)) :
    ∀ n, (∀ j, j < n → d1.getD j [] = d2.getD j []) →
      findPreviousNonEmptyLine d1 n = findPreviousNonEmptyLine d2 n := by
  intro n
  induction n with
  | zero => intro _; rfl
  | succ n ih =>
    intro h
    have hn := h n (Nat.lt_succ_self n)
    simp only [findPreviousNonEmptyLine, hn]
    by_cases hc : 0 < (trimLine (d2.getD n [])).length
    · rw [if_pos hc, if_pos hc]
    · rw [if_neg hc, if_neg hc]
      exact ih (fun j hj => h j (Nat.lt_succ_of_lt hj))

theorem takeWhile_all_self {α : Type} (p : α → Bool) (l : List α) :
    (l.takeWhile p).all p = true := by
  induction l with
  | nil => rfl
  | cons x t ih =>
    by_cases h : p x
    · simp [List.takeWhile_cons, h, ih]
    · simp [List.takeWhile_cons, h]

theorem takeWhile_of_all {α : Type} (p : α → Bool) {l : List α} (h : l.all p = true) :
    l.takeWhile p = l := by
  induction l with
  | nil => rfl
  | cons x t ih =>
    simp only [List.all_cons, Bool.and_eq_true] at h
    simp [List.takeWhile_cons, h.1, ih h.2]

theorem all_replicate {α : Type} (p : α → Bool) (n : Nat) (x : α) (h : p x = true) :
    (List.replicate n x).all p = true := by
  induction n with
  | zero => rfl
  | succ n ih => simp [List.replicate_succ, h, ih]

theorem getIndentFromLine_all_ws (l : List Char) :
    (getIndentFromLine l).all isWs = true :=
  takeWhile_all_self isWs l

theorem getIndentUnit_all_ws (ts : Nat) (insertSpaces : Bool) :
    (getIndentUnit ts insertSpaces).all isWs = true := by
  cases insertSpaces
  · rfl
  · exact all_replicate isWs _ ' ' rfl

theorem calculateIndent_all_ws (doc : List (List Char)) (n ts : Nat) (insertSpaces : Bool) :
    (calculateIndent doc n ts insertSpaces).all isWs = true := by
  unfold calculateIndent
  split_ifs with h
  · rfl
  · cases hf : findPreviousNonEmptyLine doc n with
    | none => simp [hf]
    | some p =>
      obtain ⟨j, text⟩ := p
      simp only [hf]
      by_cases hsi : shouldIncreaseIndent text = false
      · rw [if_pos hsi]
        exact getIndentFromLine_all_ws text
      · rw [if_neg hsi, List.all_append]
        simp [getIndentFromLine_all_ws, getIndentUnit_all_ws]

/-- Claim C8: for a single empty cursor on a whitespace-only line (index
at least 1) whose previous line is also whitespace-only, the smart
Backspace edit reduces the total line count by exactly 1, and the
resulting line's leading whitespace equals `calculateIndent` evaluated at
that line's new position in the resulting document. -/
theorem backspace_emptyPrev_spec (doc : List (List Char)) (cur ts : Nat)
    (insertSpaces : Bool) (h1 : 1 ≤ cur) (h2 : cur < doc.length)
    (hcur : trimLine (doc.getD cur []) = [])
    (hprev : trimLine (doc.getD (cur - 1) []) = []) :
    (handleEmptyLineWithEmptyPrevious doc cur ts insertSpaces).1.length + 1 = doc.length ∧
    getIndentFromLine
        ((handleEmptyLineWithEmptyPrevious doc cur ts insertSpaces).1.getD
          (handleEmptyLineWithEmptyPrevious doc cur ts insertSpaces).2.1 []) =
      calculateIndent (handleEmptyLineWithEmptyPrevious doc cur ts insertSpaces).1
        (handleEmptyLineWithEmptyPrevious doc cur ts insertSpaces).2.1 ts insertSpaces := by
  have htakelen : (doc.take (cur - 1)).length = cur - 1 := by
    rw [List.length_take]
    omega
  constructor
  · simp only [handleEmptyLineWithEmptyPrevious, List.length_append, List.length_cons,
      List.length_drop, htakelen]
    omega
  · show getIndentFromLine
        ((doc.take (cur - 1) ++ calculateIndent doc cur ts insertSpaces ::
            doc.drop (cur + 1)).getD (cur - 1) []) =
      calculateIndent
        (doc.take (cur - 1) ++ calculateIndent doc cur ts insertSpaces ::
            doc.drop (cur + 1)) (cur - 1) ts insertSpaces
    have hgetD : (doc.take (cur - 1) ++ calculateIndent doc cur ts insertSpaces ::
        doc.drop (cur + 1)).getD (cur - 1) [] = calculateIndent doc cur ts insertSpaces := by
      nth_rewrite 2 [← htakelen]
      exact getD_append_length _ _ _ _
    have hfp1 : findPreviousNonEmptyLine doc cur = findPreviousNonEmptyLine doc (cur - 1) := by
      conv_lhs => rw [show cur = (cur - 1) + 1 by omega]
      simp only [findPreviousNonEmptyLine, hprev]
      rw [if_neg (by simp)]
    have hfp2 : findPreviousNonEmptyLine
        (doc.take (cur - 1) ++ calculateIndent doc cur ts insertSpaces ::
          doc.drop (cur + 1)) (cur - 1) = findPreviousNonEmptyLine doc (cur - 1) := by
      apply findPrev_congr
      intro j hj
      rw [getD_append_left _ _ _ _ (by omega), getD_take _ _ _ _ hj]
    have hcalc : calculateIndent
        (doc.take (cur - 1) ++ calculateIndent doc cur ts insertSpaces ::
          doc.drop (cur + 1)) (cur - 1) ts insertSpaces =
        calculateIndent doc cur ts insertSpaces := by
      by_cases hone : cur = 1
      · subst hone
        have hnone : findPreviousNonEmptyLine doc 1 = none := by
          rw [hfp1]; rfl
        simp [calculateIndent, hnone]
      · have h01 : cur - 1 ≠ 0 := by omega
        have h02 : cur ≠ 0 := by omega
        generalize hti : calculateIndent doc cur ts insertSpaces = ti
        rw [hti] at hfp2
        unfold calculateIndent
        rw [if_neg h01, hfp2, ← hfp1, ← hti]
        unfold calculateIndent
        rw [if_neg h02]
    rw [hgetD, hcalc,
      show getIndentFromLine (calculateIndent doc cur ts insertSpaces) =
        calculateIndent doc cur ts insertSpaces from
        takeWhile_of_all isWs (calculateIndent_all_ws doc cur ts insertSpaces)]

/-- Witness for C8: backspace on the second of two whitespace-only lines
leaves a one-line document whose line is the computed (empty) indent. -/
theorem backspace_emptyPrev_spec_witness :
    (handleEmptyLineWithEmptyPrevious [[], [' ']] 1 4 true).1.length + 1 =
      ([[], [' ']] : List (List Char)).length ∧
    getIndentFromLine
        ((handleEmptyLineWithEmptyPrevious [[], [' ']] 1 4 true).1.getD
          (handleEmptyLineWithEmptyPrevious [[], [' ']] 1 4 true).2.1 []) =
      calculateIndent (handleEmptyLineWithEmptyPrevious [[], [' ']] 1 4 true).1
        (handleEmptyLineWithEmptyPrevious [[], [' ']] 1 4 true).2.1 4 true :=
  backspace_emptyPrev_spec [[], [' ']] 1 4 true (by decide) (by decide)
    (by decide) (by decide)

/-! ## SmartEnterHandler: single-cursor brace expansion -/

/-- JS `String.prototype.indexOf` for a single character. -/
def firstIndexOf (c : Char) : List Char → Option Nat
  | [] => none
  | x :: t => if x = c then some 0 else (firstIndexOf c t).map (· + 1)

/-- The three lines that replace the cursor's line in a brace expansion:
the line cut right after the opening brace, the inner indent line, and
`baseIndent + "}" +` everything after the first `}` following the brace
(anything between the brace and that `}` is discarded). -/
def braceExpansionLines (originalText : List Char) (braceCharIndex tabSize : Nat)
    (insertSpaces : Bool) : List (List Char) :=
  let baseIndent := getIndentFromLine originalText
  let innerIndent := baseIndent ++ getIndentUnit tabSize insertSpaces
  let contentAfterBrace := originalText.drop (braceCharIndex + 1)
  let contentToPreserve :=
    match firstIndexOf '}' contentAfterBrace with
    | some j => contentAfterBrace.drop (j + 1)
    | none => []
  [originalText.take (braceCharIndex + 1), innerIndent,
   baseIndent ++ '}' :: contentToPreserve]

/-- `canExpandBrace(document, selection)`: the text up to the cursor,
right-trimmed, is non-empty and ends with `{`, and
`shouldInsertClosingBrace` holds on the document view whose current line
is truncated right after that brace.  The same conditions guard the
single-cursor brace-expansion path of `execute`. -/
def canExpandBrace (doc : List (List Char)) (sel : Nat × Nat) : Bool :=
  let originalText := doc.getD sel.1 []
  let trimmedLine := trimEnd (originalText.take sel.2)
  if trimmedLine.length = 0 then false
  else if !(trimmedLine.getLast? == some '{') then false
  else
    shouldInsertClosingBrace
      (doc.set sel.1 (originalText.take ((trimmedLine.length - 1) + 1)))
      (sel.1 : Int) ((trimmedLine.length - 1 : Nat) : Int)

/-- The brace-expansion edit of `SmartEnterHandler.execute`: replace
everything after the opening brace through end of line with
newline + innerIndent + newline + baseIndent + `}` + preserved suffix —
on the line list, the cursor's line becomes the three
`braceExpansionLines`.  The final cursor is on the inner blank line at
`innerIndent` length. -/
def smartEnterExpand (doc : List (List Char)) (line charPos tabSize : Nat)
    (insertSpaces : Bool) : (List (List Char)) × (Nat × Nat) :=
  let originalText := doc.getD line []
  let braceCharIndex := (trimEnd (originalText.take charPos)).length - 1
  (doc.take line ++
     braceExpansionLines originalText braceCharIndex tabSize insertSpaces ++
     doc.drop (line + 1),
   (line + 1, (getIndentFromLine originalText ++ getIndentUnit tabSize insertSpaces).length))

theorem firstIndexOf_none {c : Char} :
    ∀ {l : List Char}, firstIndexOf c l = none → ∀ x ∈ l, x ≠ c := by
  intro l
  induction l with
  | nil => intro _ x hx; cases hx
  | cons y t ih =>
    intro h x hx
    by_cases hy : y = c
    · simp [firstIndexOf, hy] at h
    · rcases List.mem_cons.mp hx with rfl | hx'
      · exact hy
      · refine ih ?_ x hx'
        simp only [firstIndexOf, if_neg hy] at h
        exact Option.map_eq_none.mp h

theorem firstIndexOf_some {c : Char} :
    ∀ {l : List Char} {j : Nat}, firstIndexOf c l = some j →
      l = l.take j ++ c :: l.drop (j + 1) ∧ ∀ x ∈ l.take j, x ≠ c := by
  intro l
  induction l with
  | nil => intro j h; cases h
  | cons y t ih =>
    intro j h
    by_cases hy : y = c
    · simp only [firstIndexOf, if_pos hy] at h
      cases h
      subst hy
      exact ⟨by simp, by simp⟩
    · simp only [firstIndexOf, if_neg hy] at h
      rcases Option.map_eq_some.mp h with ⟨j', hj', rfl⟩
      obtain ⟨ht, htake⟩ := ih hj'
      constructor
      · simpa [List.take_succ_cons, List.drop_succ_cons] using congrArg (y :: ·) ht
      · intro x hx
        rcases List.mem_cons.mp (by simpa [List.take_succ_cons] using hx) with rfl | hx'
        · exact hy
        · exact htake x hx'

/-- The character stream of the expanded block never ends with more open
braces than the original line: the two indent lines are whitespace, the
synthesized `}` closes one open brace, and the discarded region between
the brace and the first `}` can only have contained additional opens. -/
theorem braceDepth_expansion_le (originalText : List Char) (bidx ts : Nat)
    (insertSpaces : Bool) (d : Nat) :
    braceDepth d (braceExpansionLines originalText bidx ts insertSpaces).flatten ≤
      braceDepth d originalText := by
  unfold braceExpansionLines
  simp only [List.flatten_cons, List.flatten_nil, List.append_nil, braceDepth_append]
  rw [braceDepth_ws (getIndentFromLine_all_ws originalText)]
  rw [braceDepth_ws (getIndentUnit_all_ws ts insertSpaces)]
  rw [braceDepth_ws (getIndentFromLine_all_ws originalText)]
  conv_rhs => rw [← List.take_append_drop (bidx + 1) originalText]
  rw [braceDepth_append]
  have hstep : ∀ (e : Nat) (l : List Char), braceDepth e ('}' :: l) = braceDepth (e - 1) l := by
    intro e l; simp [braceDepth]
  cases hidx : firstIndexOf '}' (originalText.drop (bidx + 1)) with
  | none =>
    simp only [hidx, hstep]
    calc braceDepth (braceDepth d (originalText.take (bidx + 1)) - 1) [] ≤
          braceDepth d (originalText.take (bidx + 1)) := by
            simp [braceDepth]
      _ ≤ braceDepth (braceDepth d (originalText.take (bidx + 1)))
            (originalText.drop (bidx + 1)) :=
            braceDepth_le_of_no_close (firstIndexOf_none hidx) _
  | some j =>
    obtain ⟨hAeq, hAtake⟩ := firstIndexOf_some hidx
    simp only [hidx, hstep]
    conv_rhs => rw [hAeq]
    rw [braceDepth_append, hstep]
    have hq : braceDepth d (originalText.take (bidx + 1)) ≤
        braceDepth (braceDepth d (originalText.take (bidx + 1)))
          ((originalText.drop (bidx + 1)).take j) :=
      braceDepth_le_of_no_close hAtake _
    exact braceDepth_mono (by omega) _

/-- Claim C2, counterexample: on the document `["{"]` with the cursor
after the brace, the brace-expansion path is taken (the brace is
unmatched), and the edit changes the document's unmatched count from 1
to 0 — the brace balance is not left unchanged. -/
theorem braceExpansion_changes_balance :
    canExpandBrace [['{']] (0, 1) = true ∧
    countUnmatchedBraces (smartEnterExpand [['{']] 0 1 4 true).1 ≠
      countUnmatchedBraces [['{']] := by
  decide

/-- Claim C2 (amended): whenever the single-cursor Enter handler takes the
brace-expansion path, the applied edit inserts exactly 2 new lines, and
the document's count of unmatched braces never increases (it is unchanged
when the brace was balanced against a later `}` with no opening braces
discarded, and decreases — e.g. by 1 for an unmatched brace — otherwise). -/
theorem braceExpansion_two_lines_balance_le (doc : List (List Char))
    (line charPos tabSize : Nat) (insertSpaces : Bool)
    (hline : line < doc.length)
    (hcan : canExpandBrace doc (line, charPos) = true) :
    (smartEnterExpand doc line charPos tabSize insertSpaces).1.length = doc.length + 2 ∧
    countUnmatchedBraces (smartEnterExpand doc line charPos tabSize insertSpaces).1 ≤
      countUnmatchedBraces doc := by
  constructor
  · simp only [smartEnterExpand, braceExpansionLines, List.length_append,
      List.length_take, List.length_cons, List.length_nil, List.length_drop]
    omega
  · rw [countUnmatched_eq_depth_join, countUnmatched_eq_depth_join]
    simp only [smartEnterExpand]
    conv_rhs => rw [getD_decomp ([] : List Char) doc line hline]
    simp only [List.flatten_append, List.flatten_cons, braceDepth_append]
    exact braceDepth_mono (braceDepth_expansion_le _ _ _ _ _) _

/-- Witness for the amended C2 on the document `["{"]`: 3 = 1 + 2 lines
and the unmatched count does not increase. -/
theorem braceExpansion_two_lines_balance_le_witness :
    (smartEnterExpand [['{']] 0 1 4 true).1.length = ([['{']] : List (List Char)).length + 2 ∧
    countUnmatchedBraces (smartEnterExpand [['{']] 0 1 4 true).1 ≤
      countUnmatchedBraces [['{']] :=
  braceExpansion_two_lines_balance_le [['{']] 0 1 4 true (by decide) (by decide)

/-! ## SmartEnterHandler.executeMultiCursor -/

/-- One planned multi-cursor edit: its original line, the three lines
replacing that line (the replacement text holds 2 newlines, so
`newLines.length - 1 = 2` inserted lines, matching
`text.split('\n').length - 1`), and the desired cursor. -/
structure EnterEdit where
  line : Nat
  newLines : List (List Char)
  newCursorLine : Nat
  newCursorChar : Nat
deriving DecidableEq

/-- One insertion step of the JS comparator sort
`(a, b) => b.line - a.line`, tie `b.char - a.char`: descending by line,
then by character. -/
def selDescInsert (x : Nat × Nat) : List (Nat × Nat) → List (Nat × Nat)
  | [] => [x]
  | y :: rest =>
    if y.1 < x.1 ∨ (x.1 = y.1 ∧ y.2 ≤ x.2) then x :: y :: rest
    else y :: selDescInsert x rest

/-- `[...selections].sort(...)`: bottom-to-top, right-to-left. -/
def sortSelsDesc (sels : List (Nat × Nat)) : List (Nat × Nat) :=
  sels.foldr selDescInsert []

/-- `executeMultiCursor`: sort the cursors bottom-to-top, build every edit
against the unmodified document, apply them as one batch (processing
bottom-to-top keeps each original line index valid), then remap each
cursor by the lines inserted by the edits after it in the sorted order
(the edits above it in the document, processed later), and reverse back
to the original cursor order. -/
def executeMultiCursor (doc : List (List Char)) (tabSize : Nat) (insertSpaces : Bool)
    (sels : List (Nat × Nat)) : (List (List Char)) × List (Nat × Nat) :=
  let edits := (sortSelsDesc sels).map (fun s =>
    { line := s.1
      newLines := braceExpansionLines (doc.getD s.1 [])
        ((trimEnd ((doc.getD s.1 []).take s.2)).length - 1) tabSize insertSpaces
      newCursorLine := s.1 + 1
      newCursorChar :=
        (getIndentFromLine (doc.getD s.1 []) ++ getIndentUnit tabSize insertSpaces).length
      : EnterEdit })
  let newDoc := edits.foldl
    (fun d e => d.take e.line ++ e.newLines ++ d.drop (e.line + 1)) doc
  let newPositions := edits.enum.map (fun p =>
    (p.2.newCursorLine +
       (((edits.drop (p.1 + 1)).map (fun e2 => e2.newLines.length - 1)).sum),
     p.2.newCursorChar))
  (newDoc, newPositions.reverse)

/-- Claim C6, counterexample: for the two independently expandable braces
of `["a{", "b{"]` (cursors after each brace), the second (lower) cursor's
final line index is 4, not its original line index 1 plus 2. -/
theorem multiCursor_second_shift_counterexample :
    canExpandBrace [['a', '{'], ['b', '{']] (0, 2) = true ∧
    canExpandBrace [['a', '{'], ['b', '{']] (1, 2) = true ∧
    ((executeMultiCursor [['a', '{'], ['b', '{']] 4 true [(0, 2), (1, 2)]).2.getD 1
        (0, 0)).1 ≠ 1 + 2 := by
  decide

/-- Claim C6 (amended): a multi-cursor Enter over exactly two
independently expandable `{` positions on lines `a < b` expands both
positions into 3-line blocks, the first cursor lands on its inner line
`a + 1`, and the second (lower) cursor's final line index equals its
original line index plus 3 — plus 1 for the inner line of its own
expansion and plus 2 contributed by the first expansion above it. -/
theorem multiCursor_two_expansion_spec (doc : List (List Char)) (tabSize : Nat)
    (insertSpaces : Bool) (a ca b cb : Nat)
    (hab : a < b) (hb : b < doc.length)
    (hca : canExpandBrace doc (a, ca) = true)
    (hcb : canExpandBrace doc (b, cb) = true) :
    (executeMultiCursor doc tabSize insertSpaces [(a, ca), (b, cb)]).1 =
      doc.take a ++
        braceExpansionLines (doc.getD a [])
          ((trimEnd ((doc.getD a []).take ca)).length - 1) tabSize insertSpaces ++
        (doc.take b).drop (a + 1) ++
        braceExpansionLines (doc.getD b [])
          ((trimEnd ((doc.getD b []).take cb)).length - 1) tabSize insertSpaces ++
        doc.drop (b + 1) ∧
    (executeMultiCursor doc tabSize insertSpaces [(a, ca), (b, cb)]).1.length =
      doc.length + 4 ∧
    (executeMultiCursor doc tabSize insertSpaces [(a, ca), (b, cb)]).2 =
      [(a + 1,
        (getIndentFromLine (doc.getD a []) ++ getIndentUnit tabSize insertSpaces).length),
       (b + 3,
        (getIndentFromLine (doc.getD b []) ++ getIndentUnit tabSize insertSpaces).length)] := by
  set NLa := braceExpansionLines (doc.getD a [])
    ((trimEnd ((doc.getD a []).take ca)).length - 1) tabSize insertSpaces with hNLa
  set NLb := braceExpansionLines (doc.getD b [])
    ((trimEnd ((doc.getD b []).take cb)).length - 1) tabSize insertSpaces with hNLb
  have hsort : sortSelsDesc [(a, ca), (b, cb)] = [(b, cb), (a, ca)] := by
    simp only [sortSelsDesc, List.foldr, selDescInsert]
    rw [if_neg (by omega)]
  have htb : (doc.take b).length = b := by
    rw [List.length_take]; omega
  have h1take : (doc.take b ++ (NLb ++ doc.drop (b + 1))).take a = doc.take a := by
    rw [List.take_append_of_le_length (by omega : a ≤ (doc.take b).length),
      List.take_take]
    congr 1
    omega
  have h1drop : (doc.take b ++ (NLb ++ doc.drop (b + 1))).drop (a + 1) =
      (doc.take b).drop (a + 1) ++ (NLb ++ doc.drop (b + 1)) := by
    rw [List.drop_append_of_le_length (by omega : a + 1 ≤ (doc.take b).length)]
  have hlenNLa : NLa.length = 3 := by rw [hNLa]; rfl
  have hlenNLb : NLb.length = 3 := by rw [hNLb]; rfl
  have hnewdoc : (executeMultiCursor doc tabSize insertSpaces [(a, ca), (b, cb)]).1 =
      doc.take a ++ NLa ++ (doc.take b).drop (a + 1) ++ NLb ++ doc.drop (b + 1) := by
    show (List.foldl _ doc _ : List (List Char)) = _
    simp only [hsort, List.map, List.foldl]
    rw [← hNLa, ← hNLb, List.append_assoc (doc.take b) NLb (doc.drop (b + 1)),
      h1take, h1drop]
    simp [List.append_assoc]
  refine ⟨hnewdoc, ?_, ?_⟩
  · rw [hnewdoc]
    simp only [List.length_append, List.length_take, List.length_drop, hlenNLa, hlenNLb]
    omega
  · show (List.reverse _ : List (Nat × Nat)) = _
    simp only [hsort, List.map, List.enum, List.enumFrom, List.drop, List.map_cons,
      List.map_nil, List.sum_cons, List.sum_nil, List.reverse_cons, List.reverse_nil,
      List.nil_append, List.cons_append, hlenNLa]
    norm_num

/-- Witness for the amended C6 on `["a{", "b{"]` with cursors after each
brace: the first cursor lands on line 1, the second on line 4 = 1 + 3. -/
theorem multiCursor_two_expansion_spec_witness :
    (executeMultiCursor [['a', '{'], ['b', '{']] 4 true [(0, 2), (1, 2)]).2 =
      [(1, 4), (4, 4)] :=
  ((multiCursor_two_expansion_spec [['a', '{'], ['b', '{']] 4 true 0 2 1 2
      (by decide) (by decide) (by decide) (by decide)).2.2).trans (by decide)
